import Mathlib

/- Formal model of the FolderOut plugin (src/src/plugin.py).

Python strings are modelled as Lean String / List Char and Python bytes
objects as List Nat (one Nat per byte).  The filesystem seen by the copier
is a map from relative paths (relative to the destination directory, with
the POSIX separator) to file contents; walk_folder is modelled by its
result, the list of relative file paths of the destination tree. -/

namespace FolderOut

/-- Bytes of a Python bytes object, one Nat (0..255) per byte. -/
abbrev Bytes := List Nat

/-- UTF-8 encoding of one Unicode scalar value, as produced by Python
str.encode with its default encoding. -/
def utf8EncodeChar (c : Char) : Bytes :=
  let v := c.toNat
  if v < 128 then [v]
  else if v < 2048 then [192 + v / 64, 128 + v % 64]
  else if v < 65536 then [224 + v / 4096, 128 + v / 64 % 64, 128 + v % 64]
  else [240 + v / 262144, 128 + v / 4096 % 64, 128 + v / 64 % 64, 128 + v % 64]

/-- UTF-8 encoding of a whole string. -/
def utf8Encode (s : String) : Bytes :=
  s.data.foldr (fun c acc => utf8EncodeChar c ++ acc) []

/-- Value returned by the host byte-retrieval callbacks (bk.readfile,
bk.readotherfile): either a Python str or a Python bytes object. -/
inductive PyData where
  | str : String → PyData
  | bytes : Bytes → PyData
deriving DecidableEq

/-- Embeds utf8_str (plugin.py lines 26-33) as used at its call sites in
copy_book_contents_to: the argument there is never None and enc always has
its default value "utf-8", under which a str is UTF-8 encoded and a bytes
object is returned unchanged (the final `return p` branch). -/
def utf8_str : PyData → Bytes
  | PyData.str p => utf8Encode p
  | PyData.bytes p => p

/-- Membership of a character in Python's string.printable (digits,
ascii letters, punctuation and the whitespace " \t\n\r\x0b\x0c"), i.e.
code points 32..126 together with 9..13. -/
def printable (c : Char) : Bool :=
  (32 ≤ c.toNat && c.toNat ≤ 126) || (9 ≤ c.toNat && c.toNat ≤ 13)

/-- Characters matched by the regex \s of step 3 of cleanup_file_name, on
the only values that can reach that step: after the string.printable
filter every remaining character is printable ASCII, on which Python's \s
(and str.strip) match exactly " \t\n\r\x0b\x0c", i.e. 32 and 9..13. -/
def pySpace (c : Char) : Bool :=
  c.toNat = 32 || (9 ≤ c.toNat && c.toNat ≤ 13)

/-- Characters matched by the _filename_sanitize regex of cleanup_file_name
(plugin.py line 89): \xae, NUL, backslash, and the characters
| ? * < " : > + /. -/
def forbidden (c : Char) : Bool :=
  c.toNat = 174 || c.toNat = 0 || c = '\\' || c = '|' || c = '?' || c = '*'
    || c = '<' || c = '"' || c = ':' || c = '>' || c = '+' || c = '/'

/-- Step 1 of cleanup_file_name: keep only characters of
string.printable. -/
def step1 (l : List Char) : List Char := l.filter printable

/-- Step 2 of cleanup_file_name: _filename_sanitize.sub replaces every
forbidden character with the substitute underscore. -/
def step2 (l : List Char) : List Char :=
  l.map (fun c => if forbidden c then '_' else c)

/-- First half of step 3 of cleanup_file_name: re.sub replaces every
single character matched by \s with one underscore. -/
def step3sub (l : List Char) : List Char :=
  l.map (fun c => if pySpace c then '_' else c)

/-- Second half of step 3 of cleanup_file_name: Python str.strip drops
leading and trailing whitespace. -/
def pyStrip (l : List Char) : List Char :=
  ((l.dropWhile pySpace).reverse.dropWhile pySpace).reverse

/-- Step 4 of cleanup_file_name: re.sub with pattern anchored at both ends
turns a non-empty all-dots string into a single underscore. -/
def step4 (l : List Char) : List Char :=
  if !l.isEmpty && l.all (fun c => c == '.') then ['_'] else l

/-- Step 5 of cleanup_file_name: Python str.replace substitutes every
non-overlapping occurrence of ".." by one underscore, scanning from the
left. -/
def replaceDotDot : List Char → List Char
  | [] => []
  | [c] => [c]
  | c1 :: c2 :: rest =>
    if c1 == '.' && c2 == '.' then '_' :: replaceDotDot rest
    else c1 :: replaceDotDot (c2 :: rest)

/-- Step 6 of cleanup_file_name: a trailing dot is replaced by an
underscore. -/
def step6 (l : List Char) : List Char :=
  if l.getLast? == some '.' then l.dropLast ++ ['_'] else l

/-- Step 7 of cleanup_file_name: a leading dot is replaced by an
underscore. -/
def step7 : List Char → List Char
  | [] => []
  | c :: rest => if c == '.' then '_' :: rest else c :: rest

/-- Embeds cleanup_file_name (plugin.py lines 87-102) on character
lists. -/
def cleanupList (name : List Char) : List Char :=
  step7 (step6 (replaceDotDot (step4 (pyStrip (step3sub (step2 (step1 name)))))))

/-- Embeds cleanup_file_name (plugin.py lines 87-102). -/
def cleanup_file_name (name : String) : String :=
  String.mk (cleanupList name.data)

/-- Python str.split on the POSIX separator: "a/b".split("/") gives
["a","b"], and "".split("/") gives [""]. -/
def pySplitSep : List Char → List (List Char)
  | [] => [[]]
  | c :: rest =>
    let r := pySplitSep rest
    if c = '/' then [] :: r
    else match r with
      | s :: ss => (c :: s) :: ss
      | [] => [[c]]

/-- Segments of a relative path, file.split(os.sep) with os.sep = "/". -/
def pathSegs (file : String) : List String :=
  (pySplitSep file.data).map String.mk

/-- Embeds valid_destination (plugin.py lines 74-81).  walk_folder is
modelled by its result, the list of file paths relative to destdir, and
os.sep is the POSIX "/".  Both membership tests happen on the segments of
the same path, nested exactly as in the source. -/
def valid_destination : List String → Bool
  | [] => true
  | file :: rest =>
    let segs := pathSegs file
    if (segs.contains ("META-INF") || segs.contains ("meta-inf"))
        && (segs.contains ("encryption.xml") || segs.contains ("ENCRYPTION.XML")) then
      false
    else
      valid_destination rest

/-- The host book object: the two ordered mappings of copy_book_contents_to
and the two byte-retrieval callbacks. -/
structure Book where
  id_to_filepath : List (String × String)
  book_href_to_filepath : List (String × String)
  readfile : String → PyData
  readotherfile : String → PyData

/-- Filesystem restricted to the destination directory: contents of the
file at each relative path, if one exists. -/
abbrev FS := String → Option Bytes

/-- Writing a file: open(filepath,'wb') followed by fp.write(data)
replaces whatever was at that path.  Parent directories are implicit in
this map-based model (os.makedirs only affects directory existence). -/
def writeFile (fs : FS) (p : String) (d : Bytes) : FS :=
  fun q => if q = p then some d else fs q

/-- Bytes written for one retrieved value (plugin.py lines 117-120 and
130-133): a str is passed through utf8_str first, bytes are written as
retrieved. -/
def dataBytes : PyData → Bytes
  | PyData.str s => utf8_str (PyData.str s)
  | PyData.bytes b => b

/-- Embeds copy_book_contents_to (plugin.py lines 107-134): every manifest
entry is written in order, then every non-manifested entry, each at its
relative path under the destination. -/
def copy_book_contents_to (bk : Book) (fs : FS) : FS :=
  let fs1 := bk.id_to_filepath.foldl
    (fun acc e => writeFile acc e.2 (dataBytes (bk.readfile e.1))) fs
  bk.book_href_to_filepath.foldl
    (fun acc e => writeFile acc e.2 (dataBytes (bk.readotherfile e.1))) fs1

/-- Destination state after copy_book_contents_to followed by the mimetype
write of run (plugin.py lines 200-206). -/
def copyWithMimetype (bk : Book) (fs : FS) : FS :=
  writeFile (copy_book_contents_to bk fs) ("mimetype")
    (utf8Encode ("application/epub+zip"))

/-- Folder-name computation of run (plugin.py lines 158-168): dctitle
starts as "foldername" and is replaced by the text of the first dc:title
tag when one is found (modelled by the Option argument; the parse loop
only assigns non-None text); a None or empty dctitle falls back to
"foldername"; the result is then sanitized. -/
def run_foldname (title : Option String) : String :=
  let dctitle := match title with
    | none => "foldername"
    | some t => t
  let dctitle := if dctitle = "" then "foldername" else dctitle
  cleanup_file_name dctitle

/-- POSIX os.path.join of a base directory and one further component, as
used at plugin.py lines 172 and 204. -/
def pyJoin (b f : String) : String :=
  if f.data.head? = some '/' then f
  else if b = "" then f
  else if b.data.getLast? = some '/' then b ++ f
  else b ++ "/" ++ f

/-- POSIX os.path.dirname: everything up to the last separator, with
trailing separators stripped unless the head is all separators. -/
def pyDirname (p : String) : String :=
  let head := (p.data.reverse.dropWhile (fun c => c ≠ '/')).reverse
  let head :=
    if !head.isEmpty && !head.all (fun c => c == '/') then
      (head.reverse.dropWhile (fun c => c = '/')).reverse
    else head
  String.mk head

/-- Environment of one invocation of run (plugin.py lines 138-218): the
host version, the stored lastDir preference value (if the key was ever
written), the home directory (os.path.expanduser of the tilde), the text
of the first dc:title tag of the OPF (none when the parse finds no such
tag), the filesystem predicates consulted, the folder chosen in the
dialog as a function of the directory the dialog starts in (the empty
string models cancellation, which is falsy in the source), the
walk_folder listing of each directory, and whether the copy or the
mimetype write raises an exception. -/
structure RunEnv where
  launcher_version : Nat
  prefsLastDir : Option String
  home : String
  title : Option String
  pathExists : String → Bool
  isDir : String → Bool
  dialog : String → String
  listing : String → List String
  copyFails : Bool

/-- Observable outcome of run: the returned status code, whether
bk.savePrefs was called, the stored lastDir value afterwards, and whether
the folder dialog was shown. -/
structure RunResult where
  code : Int
  prefsSaved : Bool
  prefsLastDir : Option String
  dialogShown : Bool

/-- Base directory passed to the folder dialog (plugin.py lines 144-175):
the stored preference (default: home) if it is an existing directory,
otherwise home; then, if basepath joined with the sanitized folder name
is an existing directory, that path. -/
def run_basepath (env : RunEnv) : String :=
  let basepath := env.prefsLastDir.getD env.home
  let basepath :=
    if env.pathExists basepath && env.isDir basepath then basepath else env.home
  let foldname := run_foldname env.title
  let destpath := pyJoin basepath foldname
  if env.pathExists destpath && env.isDir destpath then destpath else basepath

/-- Folder returned by the dialog in run (plugin.py line 179). -/
def run_foldpath (env : RunEnv) : String := env.dialog (run_basepath env)

/-- Embeds the control flow of run (plugin.py lines 138-218).  The bodies
of the copy and mimetype write are modelled separately by
copyWithMimetype; here only their success or failure matters. -/
def run (env : RunEnv) : RunResult :=
  if env.launcher_version < 20230315 then
    ⟨-1, false, env.prefsLastDir, false⟩
  else
    let foldpath := run_foldpath env
    if foldpath = "" then
      ⟨0, false, env.prefsLastDir, true⟩
    else if !env.isDir foldpath then
      ⟨-1, false, env.prefsLastDir, true⟩
    else if !valid_destination (env.listing foldpath) then
      ⟨-1, false, env.prefsLastDir, true⟩
    else if env.copyFails then
      ⟨-1, false, env.prefsLastDir, true⟩
    else
      ⟨0, true, some (pyDirname foldpath), true⟩

/-- Successful completion as described by the spec: version check passed,
a folder was selected, it is a directory, it passes the destination
validator, and the copy and mimetype write do not raise. -/
def run_success (env : RunEnv) : Bool :=
  (20230315 ≤ env.launcher_version) && (run_foldpath env != "")
    && env.isDir (run_foldpath env)
    && valid_destination (env.listing (run_foldpath env))
    && !env.copyFails

/-- A sequence of file writes applied in order to a filesystem. -/
def applyWrites (ws : List (String × Bytes)) (fs : FS) : FS :=
  ws.foldl (fun acc w => writeFile acc w.1 w.2) fs

/-- Content of the last write to a given path within a write sequence, if
any write touches it (later entries of the list win). -/
def lastWrite : List (String × Bytes) → String → Option Bytes
  | [], _ => none
  | w :: ws, q =>
    match lastWrite ws q with
    | some d => some d
    | none => if w.1 = q then some w.2 else none

/-- The write sequence performed by copy_book_contents_to: every manifest
entry in order, then every non-manifested entry, each pairing its
relative path with the bytes written for it. -/
def bookWrites (bk : Book) : List (String × Bytes) :=
  bk.id_to_filepath.map (fun e => (e.2, dataBytes (bk.readfile e.1)))
    ++ bk.book_href_to_filepath.map (fun e => (e.2, dataBytes (bk.readotherfile e.1)))

/-- Relative paths written by copy_book_contents_to. -/
def rpaths (bk : Book) : List String := (bookWrites bk).map Prod.fst

/-- Characters that survive all character-level phases of
cleanup_file_name: printable, not forbidden, not whitespace. -/
def goodChar (c : Char) : Bool := printable c && !forbidden c && !pySpace c

/-- Whether a character list contains two adjacent dots. -/
def hasDotDot : List Char → Bool
  | c1 :: c2 :: rest => (c1 == '.' && c2 == '.') || hasDotDot (c2 :: rest)
  | _ => false

/-- Book with a single manifest entry, the spec example of §8. -/
def exBook : Book :=
  ⟨[("id1", "text/chap1.xhtml")], [],
    fun _ => PyData.bytes [60, 104, 116, 109, 108, 47, 62],
    fun _ => PyData.bytes []⟩

/-- Book whose single manifest entry has the relative path mimetype. -/
def exBookMimePath : Book :=
  ⟨[("id1", "mimetype")], [],
    fun _ => PyData.bytes [120],
    fun _ => PyData.bytes []⟩

/-- Book with two manifest entries mapping to the same relative path but
fetching different bytes. -/
def exBookDupPaths : Book :=
  ⟨[("id1", "a"), ("id2", "a")], [],
    fun id => if id = "id1" then PyData.bytes [1] else PyData.bytes [2],
    fun _ => PyData.bytes []⟩

/-- Book whose single manifest entry fetches a str rather than bytes. -/
def exBookStrData : Book :=
  ⟨[("id1", "a.txt")], [],
    fun _ => PyData.str ("hé"),
    fun _ => PyData.bytes []⟩

/-- An empty destination directory. -/
def emptyFS : FS := fun _ => none

/-- A destination directory holding one unrelated pre-existing file. -/
def preFS : FS := fun q => if q = "other.txt" then some [1] else none

theorem applyWrites_cons (w : String × Bytes) (ws : List (String × Bytes)) (fs : FS) :
    applyWrites (w :: ws) fs = applyWrites ws (writeFile fs w.1 w.2) := rfl

theorem applyWrites_lookup (ws : List (String × Bytes)) (fs : FS) (q : String) :
    applyWrites ws fs q = (lastWrite ws q).elim (fs q) some := by
  induction ws generalizing fs with
  | nil => rfl
  | cons w ws ih =>
    rw [applyWrites_cons, ih]
    cases h : lastWrite ws q with
    | some d => simp [lastWrite, h]
    | none =>
      by_cases hq : w.1 = q
      · simp [lastWrite, h, hq, writeFile]
      · simp [lastWrite, h, hq, writeFile, Ne.symm hq]

theorem lastWrite_eq_none (ws : List (String × Bytes)) (q : String)
    (h : q ∉ ws.map Prod.fst) : lastWrite ws q = none := by
  induction ws with
  | nil => rfl
  | cons w ws ih =>
    simp only [List.map_cons, List.mem_cons] at h
    push_neg at h
    simp [lastWrite, ih h.2, Ne.symm h.1]

theorem lastWrite_of_nodup (ws : List (String × Bytes)) (q : String) (d : Bytes)
    (hnd : (ws.map Prod.fst).Nodup) (hm : (q, d) ∈ ws) : lastWrite ws q = some d := by
  induction ws with
  | nil => cases hm
  | cons w ws ih =>
    simp only [List.map_cons, List.nodup_cons] at hnd
    rcases List.mem_cons.mp hm with h | h
    · subst h
      simp [lastWrite, lastWrite_eq_none ws q hnd.1]
    · simp [lastWrite, ih hnd.2 h]

theorem copy_eq_applyWrites (bk : Book) (fs : FS) :
    copy_book_contents_to bk fs = applyWrites (bookWrites bk) fs := by
  simp [copy_book_contents_to, applyWrites, bookWrites, List.foldl_append,
    List.foldl_map]

theorem copy_lookup (bk : Book) (fs : FS) (q : String) :
    copy_book_contents_to bk fs q = (lastWrite (bookWrites bk) q).elim (fs q) some := by
  rw [copy_eq_applyWrites]
  exact applyWrites_lookup _ _ _

theorem copyWithMimetype_lookup (bk : Book) (fs : FS) (q : String)
    (hq : q ≠ "mimetype") :
    copyWithMimetype bk fs q = (lastWrite (bookWrites bk) q).elim (fs q) some := by
  rw [← copy_lookup]
  simp [copyWithMimetype, writeFile, hq]

theorem manifest_write_mem (bk : Book) (e : String × String)
    (he : e ∈ bk.id_to_filepath) :
    (e.2, dataBytes (bk.readfile e.1)) ∈ bookWrites bk :=
  List.mem_append_left _ (List.mem_map_of_mem _ he)

theorem href_write_mem (bk : Book) (e : String × String)
    (he : e ∈ bk.book_href_to_filepath) :
    (e.2, dataBytes (bk.readotherfile e.1)) ∈ bookWrites bk :=
  List.mem_append_right _ (List.mem_map_of_mem _ he)

/-- C4 (amended): after a successful copy, provided the relative paths of
the manifest and auxiliary entries are pairwise distinct and none of them
equals "mimetype", the file at destination/relative_path of every entry
contains exactly the bytes fetched for that identifier/href, and the file
destination/mimetype contains exactly the ASCII bytes of
"application/epub+zip". -/
theorem copy_contract (bk : Book) (fs : FS)
    (hnd : ((bookWrites bk).map Prod.fst).Nodup)
    (hmt : "mimetype" ∉ (bookWrites bk).map Prod.fst) :
    (∀ e ∈ bk.id_to_filepath,
      copyWithMimetype bk fs e.2 = some (dataBytes (bk.readfile e.1))) ∧
    (∀ e ∈ bk.book_href_to_filepath,
      copyWithMimetype bk fs e.2 = some (dataBytes (bk.readotherfile e.1))) ∧
    copyWithMimetype bk fs ("mimetype") =
      some [97, 112, 112, 108, 105, 99, 97, 116, 105, 111, 110, 47,
        101, 112, 117, 98, 43, 122, 105, 112] := by
  have hbytes : utf8Encode ("application/epub+zip") =
      [97, 112, 112, 108, 105, 99, 97, 116, 105, 111, 110, 47,
        101, 112, 117, 98, 43, 122, 105, 112] := by decide
  refine ⟨?_, ?_, ?_⟩
  · intro e he
    have hw := manifest_write_mem bk e he
    have hq : e.2 ≠ "mimetype" := by
      intro h
      exact hmt (h ▸ List.mem_map_of_mem Prod.fst hw)
    rw [copyWithMimetype_lookup bk fs e.2 hq, lastWrite_of_nodup _ _ _ hnd hw]
    rfl
  · intro e he
    have hw := href_write_mem bk e he
    have hq : e.2 ≠ "mimetype" := by
      intro h
      exact hmt (h ▸ List.mem_map_of_mem Prod.fst hw)
    rw [copyWithMimetype_lookup bk fs e.2 hq, lastWrite_of_nodup _ _ _ hnd hw]
    rfl
  · simp [copyWithMimetype, writeFile, hbytes]

/-- Witness for copy_contract at the spec §8 example: one manifest entry
"text/chap1.xhtml" with content b"<html/>" into an empty destination. -/
theorem copy_contract_witness :
    copyWithMimetype exBook emptyFS ("text/chap1.xhtml") =
      some [60, 104, 116, 109, 108, 47, 62] ∧
    copyWithMimetype exBook emptyFS ("mimetype") =
      some [97, 112, 112, 108, 105, 99, 97, 116, 105, 111, 110, 47,
        101, 112, 117, 98, 43, 122, 105, 112] := by
  have h := copy_contract exBook emptyFS (by decide) (by decide)
  exact ⟨h.1 ("id1", "text/chap1.xhtml") (by decide), h.2.2⟩

/-- Counterexample to C4 as stated: with a manifest entry whose relative
path is "mimetype" the final mimetype write overwrites the fetched bytes,
and with two manifest entries mapping to the same relative path the first
entry's fetched bytes are not the final content of its file. -/
theorem copy_contract_counterexample :
    (("id1", "mimetype") ∈ exBookMimePath.id_to_filepath ∧
      copyWithMimetype exBookMimePath emptyFS ("mimetype") ≠
        some (dataBytes (exBookMimePath.readfile "id1"))) ∧
    (("id1", "a") ∈ exBookDupPaths.id_to_filepath ∧
      copyWithMimetype exBookDupPaths emptyFS ("a") ≠
        some (dataBytes (exBookDupPaths.readfile "id1"))) := by
  decide

/-- C7: the copier's frame condition: a pre-existing file at a relative
path that is neither written by the copy nor "mimetype" keeps its exact
prior content, no pre-existing file is deleted, and a path the copy does
write ends up holding the content of the last write to it. -/
theorem copy_frame (bk : Book) (fs : FS) :
    (∀ q, q ∉ (bookWrites bk).map Prod.fst → q ≠ "mimetype" →
      copyWithMimetype bk fs q = fs q) ∧
    (∀ q d, fs q = some d → ∃ d2, copyWithMimetype bk fs q = some d2) ∧
    (∀ q d, q ≠ "mimetype" → lastWrite (bookWrites bk) q = some d →
      copyWithMimetype bk fs q = some d) := by
  refine ⟨?_, ?_, ?_⟩
  · intro q hq hmt
    rw [copyWithMimetype_lookup bk fs q hmt, lastWrite_eq_none _ _ hq]
    rfl
  · intro q d hfs
    by_cases hmt : q = "mimetype"
    · exact ⟨utf8Encode ("application/epub+zip"),
        by simp [copyWithMimetype, writeFile, hmt]⟩
    · rw [copyWithMimetype_lookup bk fs q hmt]
      cases h : lastWrite (bookWrites bk) q with
      | some d2 => exact ⟨d2, rfl⟩
      | none => exact ⟨d, by simp [hfs]⟩
  · intro q d hmt hlw
    rw [copyWithMimetype_lookup bk fs q hmt, hlw]
    rfl

/-- Witness for copy_frame: a pre-existing unrelated file "other.txt"
survives the copy untouched, and the copied path holds the new bytes. -/
theorem copy_frame_witness :
    copyWithMimetype exBook preFS ("other.txt") = some [1] ∧
    copyWithMimetype exBook preFS ("text/chap1.xhtml") =
      some [60, 104, 116, 109, 108, 47, 62] := by
  have h := copy_frame exBook preFS
  refine ⟨?_, ?_⟩
  · have h1 := h.1 ("other.txt") (by decide) (by decide)
    simpa using h1
  · exact h.2.2 ("text/chap1.xhtml") _ (by decide) (by decide)

/-- C10: when a byte-retrieval callback returns a str for an entry, the
copier writes the UTF-8 encoding of that text to the entry's destination
file; when it returns bytes, the bytes are written unmodified (stated for
books whose entries write pairwise distinct relative paths). -/
theorem copy_str_encoding (bk : Book) (fs : FS)
    (hnd : ((bookWrites bk).map Prod.fst).Nodup) :
    (∀ e ∈ bk.id_to_filepath,
      (∀ s, bk.readfile e.1 = PyData.str s →
        copy_book_contents_to bk fs e.2 = some (utf8Encode s)) ∧
      (∀ b, bk.readfile e.1 = PyData.bytes b →
        copy_book_contents_to bk fs e.2 = some b)) ∧
    (∀ e ∈ bk.book_href_to_filepath,
      (∀ s, bk.readotherfile e.1 = PyData.str s →
        copy_book_contents_to bk fs e.2 = some (utf8Encode s)) ∧
      (∀ b, bk.readotherfile e.1 = PyData.bytes b →
        copy_book_contents_to bk fs e.2 = some b)) := by
  have key1 : ∀ e ∈ bk.id_to_filepath,
      copy_book_contents_to bk fs e.2 = some (dataBytes (bk.readfile e.1)) := by
    intro e he
    rw [copy_lookup, lastWrite_of_nodup _ _ _ hnd (manifest_write_mem bk e he)]
    rfl
  have key2 : ∀ e ∈ bk.book_href_to_filepath,
      copy_book_contents_to bk fs e.2 = some (dataBytes (bk.readotherfile e.1)) := by
    intro e he
    rw [copy_lookup, lastWrite_of_nodup _ _ _ hnd (href_write_mem bk e he)]
    rfl
  refine ⟨fun e he => ⟨?_, ?_⟩, fun e he => ⟨?_, ?_⟩⟩
  · intro s hs
    rw [key1 e he, hs]
    rfl
  · intro b hb
    rw [key1 e he, hb]
    rfl
  · intro s hs
    rw [key2 e he, hs]
    rfl
  · intro b hb
    rw [key2 e he, hb]
    rfl

/-- Witness for copy_str_encoding: a manifest entry fetching the str "hé"
ends up as its UTF-8 bytes on disk. -/
theorem copy_str_encoding_witness :
    copy_book_contents_to exBookStrData emptyFS ("a.txt") =
      some [104, 195, 169] := by
  have h := ((copy_str_encoding exBookStrData emptyFS (by decide)).1
    ("id1", "a.txt") (by decide)).1 ("hé") rfl
  exact h.trans (by decide)

theorem suspicious_bool (file : String) :
    (((pathSegs file).contains ("META-INF") || (pathSegs file).contains ("meta-inf"))
        && ((pathSegs file).contains ("encryption.xml")
          || (pathSegs file).contains ("ENCRYPTION.XML"))) = true ↔
      (("META-INF" ∈ pathSegs file ∨ "meta-inf" ∈ pathSegs file) ∧
        ("encryption.xml" ∈ pathSegs file ∨ "ENCRYPTION.XML" ∈ pathSegs file)) := by
  simp [List.contains, List.elem_iff]

theorem valid_destination_cons (file : String) (rest : List String) :
    valid_destination (file :: rest) =
      if (((pathSegs file).contains ("META-INF") || (pathSegs file).contains ("meta-inf"))
          && ((pathSegs file).contains ("encryption.xml")
            || (pathSegs file).contains ("ENCRYPTION.XML"))) then false
      else valid_destination rest := rfl

theorem valid_destination_iff_aux (files : List String) :
    valid_destination files = false ↔
      ∃ f ∈ files,
        ("META-INF" ∈ pathSegs f ∨ "meta-inf" ∈ pathSegs f) ∧
        ("encryption.xml" ∈ pathSegs f ∨ "ENCRYPTION.XML" ∈ pathSegs f) := by
  induction files with
  | nil => simp [valid_destination]
  | cons file rest ih =>
    rw [valid_destination_cons]
    by_cases hb : (((pathSegs file).contains ("META-INF")
        || (pathSegs file).contains ("meta-inf"))
        && ((pathSegs file).contains ("encryption.xml")
          || (pathSegs file).contains ("ENCRYPTION.XML"))) = true
    · rw [if_pos hb]
      exact iff_of_true rfl
        ⟨file, List.mem_cons_self _ _, (suspicious_bool file).mp hb⟩
    · rw [if_neg hb]
      have hcond := fun hc => hb ((suspicious_bool file).mpr hc)
      rw [ih]
      constructor
      · rintro ⟨f, hf, hc⟩
        exact ⟨f, List.mem_cons_of_mem _ hf, hc⟩
      · rintro ⟨f, hf, hc⟩
        rcases List.mem_cons.mp hf with rfl | hf2
        · exact absurd hc hcond
        · exact ⟨f, hf2, hc⟩

/-- C1 (amended): the destination validator rejects a directory tree if
and only if some single relative file path has a segment equal to
META-INF or meta-inf together with a segment equal to encryption.xml or
ENCRYPTION.XML: the two suspicious conditions must co-occur on the same
file path, and either condition alone on any number of files does not
cause rejection. -/
theorem valid_destination_cooccurrence (files : List String) :
    valid_destination files = false ↔
      ∃ f ∈ files,
        ("META-INF" ∈ pathSegs f ∨ "meta-inf" ∈ pathSegs f) ∧
        ("encryption.xml" ∈ pathSegs f ∨ "ENCRYPTION.XML" ∈ pathSegs f) :=
  valid_destination_iff_aux files

/-- Counterexample to C1 as stated: META-INF/container.xml fires the
first suspicious condition and the separate file encryption.xml fires
the second, yet the validator accepts the tree because the two
conditions never co-occur on one path. -/
theorem valid_destination_cooccurrence_counterexample :
    "META-INF" ∈ pathSegs ("META-INF/container.xml") ∧
    "encryption.xml" ∈ pathSegs ("encryption.xml") ∧
    valid_destination (["META-INF/container.xml", "encryption.xml"]) = true := by
  decide

/-- C2 (amended): the segment match uses only the four exact spellings
META-INF, meta-inf, encryption.xml and ENCRYPTION.XML: every tree with a
file whose path carries one segment of each pair is rejected, and a tree
none of whose paths carries such a pair is accepted; other letter-case
variants are not matched. -/
theorem valid_destination_exact_spellings :
    (∀ (pre post : List String) (f : String),
      ("META-INF" ∈ pathSegs f ∨ "meta-inf" ∈ pathSegs f) →
      ("encryption.xml" ∈ pathSegs f ∨ "ENCRYPTION.XML" ∈ pathSegs f) →
      valid_destination (pre ++ f :: post) = false) ∧
    (∀ files : List String,
      (∀ f ∈ files,
        ¬ (("META-INF" ∈ pathSegs f ∨ "meta-inf" ∈ pathSegs f) ∧
          ("encryption.xml" ∈ pathSegs f ∨ "ENCRYPTION.XML" ∈ pathSegs f))) →
      valid_destination files = true) := by
  constructor
  · intro pre post f h1 h2
    exact (valid_destination_iff_aux _).mpr
      ⟨f, List.mem_append_right _ (List.mem_cons_self _ _), h1, h2⟩
  · intro files h
    cases hvd : valid_destination files with
    | true => rfl
    | false =>
      rcases (valid_destination_iff_aux files).mp hvd with ⟨f, hf2, hcond⟩
      exact absurd hcond (h f hf2)

/-- Witness for valid_destination_exact_spellings: the exact pair
META-INF/encryption.xml is rejected and an unsuspicious tree accepted. -/
theorem valid_destination_exact_spellings_witness :
    valid_destination (["META-INF/encryption.xml"]) = false ∧
    valid_destination (["a/b.txt"]) = true := by
  constructor
  · exact valid_destination_exact_spellings.1 [] [] ("META-INF/encryption.xml")
      (Or.inl (by decide)) (Or.inl (by decide))
  · refine valid_destination_exact_spellings.2 (["a/b.txt"]) ?_
    intro f hf
    rcases List.mem_singleton.mp hf with rfl
    decide

/-- Counterexample to C2 as stated: Meta-Inf/Encryption.xml is a
letter-case variant of both reserved segment names, yet the validator
accepts the tree because only the four exact spellings are matched. -/
theorem valid_destination_case_counterexample :
    pathSegs ("Meta-Inf/Encryption.xml") = ["Meta-Inf", "Encryption.xml"] ∧
    valid_destination (["Meta-Inf/Encryption.xml"]) = true := by
  decide

theorem run_unfold (env : RunEnv) :
    run env =
      if env.launcher_version < 20230315 then
        ⟨-1, false, env.prefsLastDir, false⟩
      else if run_foldpath env = "" then
        ⟨0, false, env.prefsLastDir, true⟩
      else if !env.isDir (run_foldpath env) then
        ⟨-1, false, env.prefsLastDir, true⟩
      else if !valid_destination (env.listing (run_foldpath env)) then
        ⟨-1, false, env.prefsLastDir, true⟩
      else if env.copyFails then
        ⟨-1, false, env.prefsLastDir, true⟩
      else
        ⟨0, true, some (pyDirname (run_foldpath env)), true⟩ := rfl

/-- C8: run returns only 0 or -1; it returns -1 exactly when the host
version is unsupported, or a folder was selected and it is not a
directory, fails the encryption-descriptor check, or the copy raises; it
returns 0 on successful completion and on user cancellation; and the
dialog is not shown exactly when the version check fails. -/
theorem run_status_contract (env : RunEnv) :
    ((run env).code = 0 ∨ (run env).code = -1) ∧
    ((run env).code = -1 ↔
      (env.launcher_version < 20230315 ∨
        (run_foldpath env ≠ "" ∧
          (env.isDir (run_foldpath env) = false ∨
            valid_destination (env.listing (run_foldpath env)) = false ∨
            env.copyFails = true)))) ∧
    ((run env).dialogShown = false ↔ env.launcher_version < 20230315) := by
  rw [run_unfold]
  by_cases h1 : env.launcher_version < 20230315
  · simp [h1]
  · by_cases h2 : run_foldpath env = ""
    · simp [h1, h2]
    · cases h3 : env.isDir (run_foldpath env) with
      | false => simp [h1, h2, h3]
      | true =>
        cases h4 : valid_destination (env.listing (run_foldpath env)) with
        | false => simp [h1, h2, h3, h4]
        | true =>
          cases h5 : env.copyFails with
          | false => simp [h1, h2, h3, h4, h5]
          | true => simp [h1, h2, h3, h4, h5]

/-- C9: the lastDir preference is saved exactly on successful completion
(version check passed, folder selected, destination a valid directory,
copy and mimetype write succeeded), and on every other return, user
cancellation included, the stored preference value is unchanged. -/
theorem run_prefs_contract (env : RunEnv) :
    (run env).prefsSaved = run_success env ∧
    (run env).prefsLastDir =
      (if run_success env then some (pyDirname (run_foldpath env))
        else env.prefsLastDir) := by
  rw [run_unfold]
  by_cases h1 : env.launcher_version < 20230315
  · have hv : ¬ 20230315 ≤ env.launcher_version := by omega
    simp [run_success, h1, hv]
  · have hv : 20230315 ≤ env.launcher_version := by omega
    by_cases h2 : run_foldpath env = ""
    · simp [run_success, h1, h2, hv]
    · cases h3 : env.isDir (run_foldpath env) with
      | false => simp [run_success, h1, h2, h3, hv, bne_iff_ne]
      | true =>
        cases h4 : valid_destination (env.listing (run_foldpath env)) with
        | false => simp [run_success, h1, h2, h3, h4, hv, bne_iff_ne]
        | true =>
          cases h5 : env.copyFails with
          | false => simp [run_success, h1, h2, h3, h4, h5, hv, bne_iff_ne]
          | true => simp [run_success, h1, h2, h3, h4, h5, hv, bne_iff_ne]

theorem step1_printable (l : List Char) : ∀ c ∈ step1 l, printable c = true := by
  intro c hc
  exact (List.mem_filter.mp hc).2

theorem step2_good (l : List Char) (h : ∀ c ∈ l, printable c = true) :
    ∀ c ∈ step2 l, (printable c && !forbidden c) = true := by
  intro c hc
  rcases List.mem_map.mp hc with ⟨a, ha, rfl⟩
  by_cases hf : forbidden a = true
  · rw [if_pos hf]; decide
  · rw [if_neg hf]
    have hfb : forbidden a = false := Bool.eq_false_iff.mpr hf
    simp [h a ha, hfb]

theorem step3_good (l : List Char)
    (h : ∀ c ∈ l, (printable c && !forbidden c) = true) :
    ∀ c ∈ step3sub l, goodChar c = true := by
  intro c hc
  rcases List.mem_map.mp hc with ⟨a, ha, rfl⟩
  by_cases hs : pySpace a = true
  · rw [if_pos hs]; decide
  · rw [if_neg hs]
    have hsb : pySpace a = false := Bool.eq_false_iff.mpr hs
    have h2 := h a ha
    simp only [Bool.and_eq_true] at h2
    simp [goodChar, h2.1, h2.2, hsb]

theorem mem_of_mem_dropWhile (p : Char → Bool) (l : List Char) :
    ∀ c ∈ l.dropWhile p, c ∈ l := by
  induction l with
  | nil => intro c hc; exact hc
  | cons a t ih =>
    intro c hc
    rw [List.dropWhile_cons] at hc
    by_cases hp : p a = true
    · rw [if_pos hp] at hc
      exact List.mem_cons_of_mem _ (ih c hc)
    · rw [if_neg hp] at hc
      exact hc

theorem pyStrip_mem (l : List Char) : ∀ c ∈ pyStrip l, c ∈ l := by
  intro c hc
  unfold pyStrip at hc
  rw [List.mem_reverse] at hc
  have hc2 := mem_of_mem_dropWhile _ _ c hc
  rw [List.mem_reverse] at hc2
  exact mem_of_mem_dropWhile _ _ c hc2

theorem step4_good (l : List Char) (h : ∀ c ∈ l, goodChar c = true) :
    ∀ c ∈ step4 l, goodChar c = true := by
  intro c hc
  unfold step4 at hc
  by_cases hb : (!l.isEmpty && l.all fun c => c == '.') = true
  · rw [if_pos hb] at hc
    rcases List.mem_singleton.mp hc with rfl
    decide
  · rw [if_neg hb] at hc
    exact h c hc

theorem replaceDotDot_mem : ∀ (l : List Char) (c : Char),
    c ∈ replaceDotDot l → c ∈ l ∨ c = '_'
  | [], c, hc => by cases hc
  | [a], c, hc => by
    simp only [replaceDotDot] at hc
    exact Or.inl hc
  | c1 :: c2 :: rest, c, hc => by
    simp only [replaceDotDot] at hc
    by_cases hb : (c1 == '.' && c2 == '.') = true
    · rw [if_pos hb] at hc
      rcases List.mem_cons.mp hc with rfl | hc2
      · exact Or.inr rfl
      · rcases replaceDotDot_mem rest c hc2 with h | h
        · exact Or.inl (List.mem_cons_of_mem _ (List.mem_cons_of_mem _ h))
        · exact Or.inr h
    · rw [if_neg hb] at hc
      rcases List.mem_cons.mp hc with rfl | hc2
      · exact Or.inl (List.mem_cons_self _ _)
      · rcases replaceDotDot_mem (c2 :: rest) c hc2 with h | h
        · exact Or.inl (List.mem_cons_of_mem _ h)
        · exact Or.inr h

theorem replaceDotDot_good (l : List Char) (h : ∀ c ∈ l, goodChar c = true) :
    ∀ c ∈ replaceDotDot l, goodChar c = true := by
  intro c hc
  rcases replaceDotDot_mem l c hc with h2 | rfl
  · exact h c h2
  · decide

theorem step6_good (l : List Char) (h : ∀ c ∈ l, goodChar c = true) :
    ∀ c ∈ step6 l, goodChar c = true := by
  intro c hc
  unfold step6 at hc
  by_cases hb : (l.getLast? == some '.') = true
  · rw [if_pos hb] at hc
    rcases List.mem_append.mp hc with h2 | h2
    · exact h c ((List.dropLast_sublist l).subset h2)
    · rcases List.mem_singleton.mp h2 with rfl
      decide
  · rw [if_neg hb] at hc
    exact h c hc

theorem step7_good (l : List Char) (h : ∀ c ∈ l, goodChar c = true) :
    ∀ c ∈ step7 l, goodChar c = true := by
  intro c hc
  cases l with
  | nil => cases hc
  | cons a t =>
    simp only [step7] at hc
    by_cases hb : (a == '.') = true
    · rw [if_pos hb] at hc
      rcases List.mem_cons.mp hc with rfl | hc2
      · decide
      · exact h c (List.mem_cons_of_mem _ hc2)
    · rw [if_neg hb] at hc
      exact h c hc

theorem cleanupList_good (x : List Char) : ∀ c ∈ cleanupList x, goodChar c = true := by
  unfold cleanupList
  apply step7_good
  apply step6_good
  apply replaceDotDot_good
  apply step4_good
  intro c hc
  exact step3_good _ (step2_good _ (step1_printable x)) c (pyStrip_mem _ c hc)

theorem hasDotDot_cons_cons (c1 c2 : Char) (r : List Char) :
    hasDotDot (c1 :: c2 :: r) = ((c1 == '.' && c2 == '.') || hasDotDot (c2 :: r)) := rfl

theorem hasDotDot_replaceDotDot : ∀ l : List Char, hasDotDot (replaceDotDot l) = false
  | [] => rfl
  | [_] => rfl
  | c1 :: c2 :: rest => by
    simp only [replaceDotDot]
    by_cases hb : (c1 == '.' && c2 == '.') = true
    · rw [if_pos hb]
      have h2 := hasDotDot_replaceDotDot rest
      cases hr : replaceDotDot rest with
      | nil => rfl
      | cons d r2 =>
        rw [hr] at h2
        rw [hasDotDot_cons_cons]
        simp [h2, (by decide : (('_' : Char) == '.') = false)]
    · rw [if_neg hb]
      have hb2 : (c1 == '.' && c2 == '.') = false := Bool.eq_false_iff.mpr hb
      have h2 := hasDotDot_replaceDotDot (c2 :: rest)
      cases rest with
      | nil =>
        rw [show replaceDotDot [c2] = [c2] from rfl, hasDotDot_cons_cons]
        simp [hb2, hasDotDot]
      | cons c3 r3 =>
        simp only [replaceDotDot]
        simp only [replaceDotDot] at h2
        by_cases hb3 : (c2 == '.' && c3 == '.') = true
        · rw [if_pos hb3]
          rw [if_pos hb3] at h2
          rw [hasDotDot_cons_cons]
          have hc2 : (c2 == '.') = true := (Bool.and_eq_true _ _ |>.mp hb3).1
          have hc1 : (c1 == '.') = false := by
            cases hq : (c1 == '.') with
            | false => rfl
            | true => exact absurd (by simp [hq, hc2]) hb
          simp [hc1, h2]
        · rw [if_neg hb3]
          rw [if_neg hb3] at h2
          rw [hasDotDot_cons_cons]
          simp [hb2, h2]

theorem replaceDotDot_eq_self : ∀ l : List Char, hasDotDot l = false → replaceDotDot l = l
  | [], _ => rfl
  | [_], _ => rfl
  | c1 :: c2 :: rest, h => by
    rw [hasDotDot_cons_cons] at h
    simp only [Bool.or_eq_false_iff] at h
    simp only [replaceDotDot]
    rw [if_neg (by simp [h.1])]
    rw [replaceDotDot_eq_self (c2 :: rest) h.2]

theorem hasDotDot_of_no_dot (l : List Char) (h : ∀ c ∈ l, c ≠ '.') :
    hasDotDot l = false := by
  induction l with
  | nil => rfl
  | cons a t ih =>
    cases t with
    | nil => rfl
    | cons b r =>
      rw [hasDotDot_cons_cons]
      have ha : (a == '.') = false := by
        simp [h a (List.mem_cons_self _ _)]
      simp [ha, ih (fun c hc => h c (List.mem_cons_of_mem _ hc))]

theorem hasDotDot_dropLast (l : List Char) (h : hasDotDot l = false) :
    hasDotDot l.dropLast = false := by
  induction l with
  | nil => rfl
  | cons a t ih =>
    cases t with
    | nil => rfl
    | cons b r =>
      rw [hasDotDot_cons_cons] at h
      simp only [Bool.or_eq_false_iff] at h
      have ih2 := ih h.2
      rw [List.dropLast_cons_of_ne_nil (by simp : b :: r ≠ [])]
      cases r with
      | nil => rfl
      | cons c3 r3 =>
        rw [List.dropLast_cons_of_ne_nil (by simp : c3 :: r3 ≠ [])] at ih2 ⊢
        rw [hasDotDot_cons_cons]
        simp [h.1, ih2]

theorem hasDotDot_append_single (l : List Char) (c : Char) (h : hasDotDot l = false)
    (hc : c ≠ '.') : hasDotDot (l ++ [c]) = false := by
  induction l with
  | nil =>
    simp only [List.nil_append]
    rfl
  | cons a t ih =>
    cases t with
    | nil =>
      rw [show ([a] ++ [c]) = a :: c :: [] from rfl, hasDotDot_cons_cons]
      simp [hc, hasDotDot]
    | cons b r =>
      rw [hasDotDot_cons_cons] at h
      simp only [Bool.or_eq_false_iff] at h
      rw [show ((a :: b :: r) ++ [c]) = a :: ((b :: r) ++ [c]) from rfl]
      rw [show ((b :: r) ++ [c]) = b :: (r ++ [c]) from rfl]
      rw [hasDotDot_cons_cons]
      have ih2 := ih h.2
      rw [show ((b :: r) ++ [c]) = b :: (r ++ [c]) from rfl] at ih2
      simp [h.1, ih2]

theorem hasDotDot_step6 (l : List Char) (h : hasDotDot l = false) :
    hasDotDot (step6 l) = false := by
  unfold step6
  by_cases hb : (l.getLast? == some '.') = true
  · rw [if_pos hb]
    exact hasDotDot_append_single _ _ (hasDotDot_dropLast l h) (by decide)
  · rw [if_neg hb]
    exact h

theorem hasDotDot_step7 (l : List Char) (h : hasDotDot l = false) :
    hasDotDot (step7 l) = false := by
  cases l with
  | nil => rfl
  | cons a t =>
    simp only [step7]
    by_cases hb : (a == '.') = true
    · rw [if_pos hb]
      cases t with
      | nil => rfl
      | cons b r =>
        rw [hasDotDot_cons_cons] at h ⊢
        simp only [Bool.or_eq_false_iff] at h
        simp [h.2, (by decide : (('_' : Char) == '.') = false)]
    · rw [if_neg hb]
      exact h

theorem cleanupList_noDotDot (x : List Char) : hasDotDot (cleanupList x) = false := by
  unfold cleanupList
  exact hasDotDot_step7 _ (hasDotDot_step6 _ (hasDotDot_replaceDotDot _))

theorem step7_head (l : List Char) : (step7 l).head? ≠ some '.' := by
  cases l with
  | nil => simp [step7]
  | cons a t =>
    simp only [step7]
    by_cases hb : (a == '.') = true
    · rw [if_pos hb]
      simp
    · rw [if_neg hb]
      simp
      intro h
      rw [h] at hb
      exact hb (by decide)

theorem cleanupList_head (x : List Char) : (cleanupList x).head? ≠ some '.' :=
  step7_head _

theorem step6_last (l : List Char) : (step6 l).getLast? ≠ some '.' := by
  unfold step6
  by_cases hb : (l.getLast? == some '.') = true
  · rw [if_pos hb]
    rw [List.getLast?_concat]
    decide
  · rw [if_neg hb]
    intro h
    rw [h] at hb
    exact hb (by decide)

theorem step7_last (l : List Char) (h : l.getLast? ≠ some '.') :
    (step7 l).getLast? ≠ some '.' := by
  cases l with
  | nil => simp [step7]
  | cons a t =>
    simp only [step7]
    cases t with
    | nil =>
      by_cases hb : (a == '.') = true
      · rw [if_pos hb]
        decide
      · rw [if_neg hb]
        exact h
    | cons b r =>
      by_cases hb : (a == '.') = true
      · rw [if_pos hb]
        rw [List.getLast?_cons_cons] at h ⊢
        exact h
      · rw [if_neg hb]
        exact h

theorem cleanupList_last (x : List Char) : (cleanupList x).getLast? ≠ some '.' := by
  unfold cleanupList
  exact step7_last _ (step6_last _)

theorem good_printable (c : Char) (h : goodChar c = true) : printable c = true := by
  simp only [goodChar, Bool.and_eq_true] at h
  exact h.1.1

theorem good_forbidden (c : Char) (h : goodChar c = true) : forbidden c = false := by
  simp only [goodChar, Bool.and_eq_true, Bool.not_eq_true'] at h
  exact h.1.2

theorem good_space (c : Char) (h : goodChar c = true) : pySpace c = false := by
  simp only [goodChar, Bool.and_eq_true, Bool.not_eq_true'] at h
  exact h.2

theorem map_eq_self_of (f : Char → Char) (l : List Char) (h : ∀ c ∈ l, f c = c) :
    l.map f = l := by
  induction l with
  | nil => rfl
  | cons a t ih =>
    rw [List.map_cons, h a (List.mem_cons_self _ _),
      ih (fun c hc => h c (List.mem_cons_of_mem _ hc))]

theorem filter_eq_self_of (p : Char → Bool) (l : List Char)
    (h : ∀ c ∈ l, p c = true) : l.filter p = l := by
  induction l with
  | nil => rfl
  | cons a t ih =>
    rw [List.filter_cons, if_pos (h a (List.mem_cons_self _ _)),
      ih (fun c hc => h c (List.mem_cons_of_mem _ hc))]

theorem dropWhile_eq_self_of (p : Char → Bool) (l : List Char)
    (h : ∀ c ∈ l, p c = false) : l.dropWhile p = l := by
  cases l with
  | nil => rfl
  | cons a t =>
    rw [List.dropWhile_cons, if_neg (by simp [h a (List.mem_cons_self _ _)])]

theorem pyStrip_eq_self (l : List Char) (h : ∀ c ∈ l, pySpace c = false) :
    pyStrip l = l := by
  unfold pyStrip
  rw [dropWhile_eq_self_of _ _ h,
    dropWhile_eq_self_of _ _ (fun c hc => h c (List.mem_reverse.mp hc)),
    List.reverse_reverse]

theorem step4_eq_self (l : List Char) (h : l.head? ≠ some '.') : step4 l = l := by
  unfold step4
  cases l with
  | nil => rfl
  | cons a t =>
    rw [if_neg]
    intro hb
    have ha : (a == '.') = true := by
      simp only [List.all_cons, Bool.and_eq_true] at hb
      exact hb.2.1
    exact h (by rw [List.head?_cons, beq_iff_eq.mp ha])

theorem step6_eq_self (l : List Char) (h : l.getLast? ≠ some '.') : step6 l = l := by
  unfold step6
  rw [if_neg]
  intro hb
  exact h (beq_iff_eq.mp hb)

theorem step7_eq_self (l : List Char) (h : l.head? ≠ some '.') : step7 l = l := by
  cases l with
  | nil => rfl
  | cons a t =>
    simp only [step7]
    rw [if_neg]
    intro hb
    exact h (by rw [List.head?_cons, beq_iff_eq.mp hb])

theorem cleanupList_eq_self (y : List Char)
    (hg : ∀ c ∈ y, goodChar c = true)
    (hdd : hasDotDot y = false)
    (hh : y.head? ≠ some '.')
    (hl : y.getLast? ≠ some '.') :
    cleanupList y = y := by
  unfold cleanupList
  rw [show step1 y = y from filter_eq_self_of _ _ (fun c hc => good_printable c (hg c hc)),
    show step2 y = y from
      map_eq_self_of _ _ (fun c hc => by rw [if_neg (by simp [good_forbidden c (hg c hc)])]),
    show step3sub y = y from
      map_eq_self_of _ _ (fun c hc => by rw [if_neg (by simp [good_space c (hg c hc)])]),
    pyStrip_eq_self _ (fun c hc => good_space c (hg c hc)),
    step4_eq_self _ hh, replaceDotDot_eq_self _ hdd, step6_eq_self _ hl,
    step7_eq_self _ hh]

/-- C6: the name sanitizer is idempotent: sanitizing an already sanitized
title changes nothing, for every input string. -/
theorem cleanup_file_name_idem (x : String) :
    cleanup_file_name (cleanup_file_name x) = cleanup_file_name x :=
  congrArg String.mk (cleanupList_eq_self (cleanupList x.data)
    (cleanupList_good _) (cleanupList_noDotDot _) (cleanupList_head _)
    (cleanupList_last _))

/-- Counterexample to C5 as stated: two adjacent spaces produce two
underscores, not one. -/
theorem cleanup_whitespace_counterexample :
    cleanup_file_name ("a  b") = "a__b" ∧ cleanup_file_name ("a  b") ≠ "a_b" := by
  decide

/-- C5 (amended): step 3 replaces every single whitespace character with
one underscore of its own, so a run of n whitespace characters yields n
underscores: "a" followed by n spaces and "b" sanitizes to "a" followed
by n underscores and "b" (in particular "a  b" yields "a__b"). -/
theorem cleanup_whitespace_per_char (n : Nat) :
    cleanup_file_name (String.mk ('a' :: List.replicate n ' ' ++ ['b'])) =
      String.mk ('a' :: List.replicate n '_' ++ ['b']) := by
  have hmem : ∀ c ∈ ('a' :: List.replicate n ' ' ++ ['b']),
      c = 'a' ∨ c = ' ' ∨ c = 'b' := by
    intro c hc
    rcases List.mem_cons.mp hc with rfl | hc2
    · exact Or.inl rfl
    rcases List.mem_append.mp hc2 with h3 | h3
    · exact Or.inr (Or.inl (List.eq_of_mem_replicate h3))
    · exact Or.inr (Or.inr (List.mem_singleton.mp h3))
  have hmem2 : ∀ c ∈ ('a' :: List.replicate n '_' ++ ['b']),
      c = 'a' ∨ c = '_' ∨ c = 'b' := by
    intro c hc
    rcases List.mem_cons.mp hc with rfl | hc2
    · exact Or.inl rfl
    rcases List.mem_append.mp hc2 with h3 | h3
    · exact Or.inr (Or.inl (List.eq_of_mem_replicate h3))
    · exact Or.inr (Or.inr (List.mem_singleton.mp h3))
  have hlast : ('a' :: List.replicate n '_' ++ ['b']).getLast? = some 'b' := by
    rw [show 'a' :: List.replicate n '_' ++ ['b'] =
      ('a' :: List.replicate n '_') ++ ['b'] from by rw [List.cons_append]]
    exact List.getLast?_concat _
  unfold cleanup_file_name
  congr 1
  unfold cleanupList
  rw [show step1 ('a' :: List.replicate n ' ' ++ ['b']) =
      'a' :: List.replicate n ' ' ++ ['b'] from
      filter_eq_self_of _ _ (by intro c hc; rcases hmem c hc with rfl | rfl | rfl <;> decide)]
  rw [show step2 ('a' :: List.replicate n ' ' ++ ['b']) =
      'a' :: List.replicate n ' ' ++ ['b'] from
      map_eq_self_of _ _ (by
        intro c hc
        rcases hmem c hc with rfl | rfl | rfl <;> decide)]
  rw [show step3sub ('a' :: List.replicate n ' ' ++ ['b']) =
      'a' :: List.replicate n '_' ++ ['b'] from by
    unfold step3sub
    simp [List.map_append, List.map_cons, List.map_replicate,
      (by decide : pySpace 'a' = false), (by decide : pySpace ' ' = true),
      (by decide : pySpace 'b' = false)]]
  rw [pyStrip_eq_self _ (by intro c hc; rcases hmem2 c hc with rfl | rfl | rfl <;> decide)]
  rw [step4_eq_self _ (by rw [List.cons_append, List.head?_cons]; decide)]
  rw [replaceDotDot_eq_self _ (hasDotDot_of_no_dot _
    (by intro c hc; rcases hmem2 c hc with rfl | rfl | rfl <;> decide))]
  rw [step6_eq_self _ (by rw [hlast]; decide)]
  rw [step7_eq_self _ (by rw [List.cons_append, List.head?_cons]; decide)]

/-- Counterexample to C3 as stated: the title "®" is non-empty, so the
pre-sanitization fallback of run does not fire, and its sanitized form,
the empty string, becomes the default folder name instead of
"foldername". -/
theorem run_foldname_counterexample :
    ("®" : String) ≠ "" ∧ cleanup_file_name ("®") = "" ∧
    run_foldname (some ("®")) = "" ∧ run_foldname (some ("®")) ≠ "foldername" := by
  decide

/-- C3 (amended): the fallback "foldername" is applied only when the
extracted title is missing or empty before sanitization; a non-empty
title is passed to the sanitizer unchanged, so a non-empty title whose
sanitized form is empty yields the empty default folder name. -/
theorem run_foldname_fallback :
    run_foldname none = "foldername" ∧ run_foldname (some "") = "foldername" ∧
    ∀ t : String, t ≠ "" → run_foldname (some t) = cleanup_file_name t := by
  refine ⟨by decide, by decide, ?_⟩
  intro t ht
  show cleanup_file_name (if t = "" then "foldername" else t) = cleanup_file_name t
  rw [if_neg ht]

/-- Witness for run_foldname_fallback at the non-empty title "®". -/
theorem run_foldname_fallback_witness :
    ("®" : String) ≠ "" ∧ run_foldname (some ("®")) = cleanup_file_name ("®") :=
  ⟨by decide, run_foldname_fallback.2.2 ("®") (by decide)⟩

end FolderOut
